import Mathlib

/-!
Verification of the COLOSSUS editor core (src/editor.cpp, src/editor.h).

The development shallowly embeds the parts of the editor that the
specification reasons about:

* the save-time text normalization of `Editor::apply_save_fixes`
  (trim trailing whitespace per line via a `std::getline` loop, then
  ensure a trailing newline);
* the search/replace engine: the wrap logic of `Editor::search_find_next`
  and the forward replace loop of `Editor::search_replace_all`, on top of
  a substring-match primitive modelled from the specification (the
  underlying matcher is GtkSourceView library code, not part of this
  repository);
* the external-change reconciliation state machine of
  `Editor::s_on_file_monitor_changed` together with the own-write
  suppression performed by `Editor::save_file`.

Texts are modelled as lists of characters; machine timestamps
(`guint64` microseconds) are modelled as `Nat` (no arithmetic overflow
is exercised by any operation here, only equality tests).
-/

/-- Buffer text, modelled as the list of characters of a `std::string`. -/
abbrev Text := List Char

/-- Embeds `is_space_char` (src/editor.cpp line 34): `std::isspace` in the C
locale accepts space, tab, newline, vertical tab, form feed and carriage
return. -/
def is_space_char (c : Char) : Bool :=
  c = ' ' || c = '\t' || c = '\n' || c = Char.ofNat 11 || c = Char.ofNat 12 || c = '\r'

/-- Embeds `rtrim_copy` (src/editor.cpp lines 36-39): repeatedly pop the last
character while it is whitespace. -/
def rtrim_copy (s : Text) : Text :=
  (s.reverse.dropWhile is_space_char).reverse

/-- Embeds the character-level behaviour of the `std::getline` loop reading a
`std::stringstream` (src/editor.cpp lines 519-527): an exhausted stream yields
no line; otherwise characters accumulate into the current line until a
newline is consumed, and a newline that ends the input terminates the last
line without starting an empty one. -/
def getlines_go : Text → Text → List Text
  | [], cur => [cur.reverse]
  | '\n' :: rest, cur => cur.reverse :: (if rest.isEmpty then [] else getlines_go rest [])
  | c :: rest, cur => getlines_go rest (c :: cur)

/-- Lines produced by the `std::getline` loop of `Editor::apply_save_fixes`
for a given text (empty text yields no lines). -/
def getlines (t : Text) : List Text :=
  if t.isEmpty then [] else getlines_go t []

/-- Embeds the accumulation in the `while (std::getline(in, line))` loop of
`Editor::apply_save_fixes` (src/editor.cpp lines 522-527): a newline is
emitted before every line but the first, then the right-trimmed line. -/
def trim_join : List Text → Text → Bool → Text
  | [], out, _ => out
  | line :: rest, out, first =>
      trim_join rest (out ++ (if first then [] else ['\n']) ++ rtrim_copy line) false

/-- Embeds the trim-trailing-whitespace pass of `Editor::apply_save_fixes`
(src/editor.cpp lines 518-530). -/
def trimTrailingWhitespace (t : Text) : Text :=
  trim_join (getlines t) [] true

/-- Embeds the ensure-newline-at-EOF pass of `Editor::apply_save_fixes`
(src/editor.cpp lines 531-533): `if (text.empty() || text.back() != '\n')
text.push_back('\n')`. -/
def ensureTrailingNewline (t : Text) : Text :=
  if t.isEmpty || t.getLast? ≠ some '\n' then t ++ ['\n'] else t

/-- Embeds `Editor::apply_save_fixes` (src/editor.cpp lines 517-534): the
optional trim pass runs first, the optional ensure-newline pass second. -/
def apply_save_fixes (trim_ws_on_save ensure_newline_eof : Bool) (text : Text) : Text :=
  let t1 := if trim_ws_on_save then trimTrailingWhitespace text else text
  if ensure_newline_eof then ensureTrailingNewline t1 else t1

/-- Splitting on every newline, following the words of the specification
("splits text into lines on `\n`"): a text with k newlines has k+1 parts.
Used to compare the specified line splitting with the getline-based code. -/
def splitOnNewlines_go : Text → Text → List Text
  | [], cur => [cur.reverse]
  | '\n' :: rest, cur => cur.reverse :: splitOnNewlines_go rest []
  | c :: rest, cur => splitOnNewlines_go rest (c :: cur)

/-- Parts of a text split on every newline (spec-side notion of lines). -/
def splitOnNewlines (t : Text) : List Text :=
  splitOnNewlines_go t []

/-- Joining a list of lines with a newline before every line but the first
(the shape produced by the trim loop). -/
def joinWithNewlines : List Text → Text
  | [] => []
  | l :: rest => l ++ (rest.map (fun x => '\n' :: x)).flatten

/-! ### Search engine

The substring-match primitive below is `Modelled from the spec`: the editor
delegates matching to `gtk_source_search_context_forward` /
`gtk_source_search_context_backward` (GtkSourceView library code that is not
part of this repository), configured in `Editor::ensure_search_context` with
case sensitivity off and engine-level wrap-around off.  The specification
describes the primitive as literal substring matching, case-folded with a
locale-independent ASCII lowering when case-insensitive, with an empty
pattern matching nothing.  The wrap logic of `Editor::search_find_next` and
the replace loop of `Editor::search_replace_all` are embedded from the
source. -/

/-- Embeds the ASCII-safe lowering used for case folding (the editor
lowercases with `std::tolower` on unsigned chars, as in `to_lower`,
src/editor.cpp lines 94-97; only `A`-`Z` map down in the C locale). -/
def ascii_to_lower (c : Char) : Char :=
  if 'A' ≤ c ∧ c ≤ 'Z' then Char.ofNat (c.toNat + 32) else c

/-- Case folding for a comparison: identity when case-sensitive, ASCII
lowering otherwise. -/
def fold_char (cs : Bool) (c : Char) : Char :=
  if cs then c else ascii_to_lower c

/-- Modelled from the spec: whether the pattern matches at the front of a
text, by case-folded literal comparison ("matches are byte-exact substring
matches (no regex)", folded when `caseSensitive` is false). -/
def matches_here (pat : Text) (cs : Bool) (xs : Text) : Bool :=
  (xs.take pat.length).map (fold_char cs) == pat.map (fold_char cs)

/-- Whether the pattern occurs at offset `j` of the text (case-folded). -/
def matches_at (t pat : Text) (cs : Bool) (j : Nat) : Bool :=
  matches_here pat cs (t.drop j)

/-- Modelled from the spec: offset of the leftmost occurrence of the pattern
in a text, scanning left to right. -/
def firstMatchPos (pat : Text) (cs : Bool) : Text → Option Nat
  | [] => if matches_here pat cs [] then some 0 else none
  | c :: rest =>
      if matches_here pat cs (c :: rest) then some 0
      else (firstMatchPos pat cs rest).map (· + 1)

/-- Modelled from the spec: the forward search primitive
(`gtk_source_search_context_forward` as the spec describes it): the first
occurrence starting at or after `start`; an empty pattern matches nothing. -/
def findForwardFrom (t pat : Text) (cs : Bool) (start : Nat) : Option Nat :=
  if pat.isEmpty then none
  else (firstMatchPos pat cs (t.drop start)).map (· + start)

/-- Modelled from the spec: the backward search primitive
(`gtk_source_search_context_backward` as the spec describes it): the
occurrence whose start is nearest but strictly before `cursor`; an empty
pattern matches nothing. -/
def findBackwardFrom (t pat : Text) (cs : Bool) (cursor : Nat) : Option Nat :=
  if pat.isEmpty then none
  else ((List.range cursor).filter (fun j => matches_at t pat cs j)).getLast?

/-- Embeds `Editor::search_find_next` (src/editor.cpp lines 684-715): search
from the cursor in the requested direction; on failure move the iterator to
the opposite end of the buffer and retry the same directional search once.
Returns the match as a half-open offset range. -/
def search_find_next (t pat : Text) (cs : Bool) (cursor : Nat) (backwards : Bool) :
    Option (Nat × Nat) :=
  if backwards then
    match findBackwardFrom t pat cs cursor with
    | some s => some (s, s + pat.length)
    | none =>
        match findBackwardFrom t pat cs t.length with
        | some s => some (s, s + pat.length)
        | none => none
  else
    match findForwardFrom t pat cs cursor with
    | some s => some (s, s + pat.length)
    | none =>
        match findForwardFrom t pat cs 0 with
        | some s => some (s, s + pat.length)
        | none => none

/-- Embeds the replace loop of `Editor::search_replace_all` (src/editor.cpp
lines 740-747): find the next forward match at offset `s` from the scan
cursor, replace it and count it.  The next scan cursor follows the GTK iter
bookkeeping: `gtk_text_buffer_delete` leaves `mstart` at the deletion point
`s`; `gtk_text_buffer_insert` then revalidates `mstart` to the END of the
inserted text, offset `s + repl.length`; `iter = mstart` followed by
`gtk_text_iter_forward_chars(&iter, repl.size())` advances a further
`repl.length` characters, so scanning resumes at `s + repl.length +
repl.length` — `repl.length` characters of the original text after the
replacement are skipped unscanned.  (`forward_chars` clamps at the buffer
end, but a cursor at or past the end finds no match either way, so the
unclamped model returns the same text and count.)  The structural `fuel`
argument bounds the number of iterations by the C++ loop's termination
measure `text.length + 1 - iter` (each substitution consumes a nonempty
match at or after the cursor, so the measure strictly decreases);
`replace_all_loop_fuel_irrelevant` below proves the returned value never
depends on any sufficient fuel, so the embedding agrees with the unbounded
C++ `while` loop. -/
def replace_all_loop (pat repl : Text) (cs : Bool) : Nat → Text → Nat → Nat → Text × Nat
  | 0, text, _iter, count => (text, count)
  | fuel + 1, text, iter, count =>
      match findForwardFrom text pat cs iter with
      | none => (text, count)
      | some s =>
          replace_all_loop pat repl cs fuel
            (text.take s ++ repl ++ text.drop (s + pat.length))
            (s + repl.length + repl.length) (count + 1)

/-- Embeds the state left by `Editor::search_replace_all` (src/editor.cpp
lines 731-751): a single forward pass over the buffer starting at offset 0.
The pair collects the final buffer text together with the loop's local
counter variable `count`; note the C++ member function itself returns `void`
and discards that counter (`(void)count;`, line 750), so only the text
component is observable to the caller — `search_replace_all_effect` below is
that caller-observable result. -/
def search_replace_all (pat repl : Text) (cs : Bool) (text : Text) : Text × Nat :=
  replace_all_loop pat repl cs (text.length + 1) text 0 0

/-- The caller-observable effect of `Editor::search_replace_all`: the
function's return type is `void`, so the mutated buffer text is all it
produces. -/
def search_replace_all_effect (pat repl : Text) (cs : Bool) (text : Text) : Text :=
  (replace_all_loop pat repl cs (text.length + 1) text 0 0).1

/-! ### External change reconciler -/

/-- File monitor event types delivered by the host (`GFileMonitorEvent`). -/
inductive FileMonitorEvent where
  | changed
  | changesDoneHint
  | deleted
  | created
  | attributeChanged
  | preUnmount
  | unmounted
  | moved
  | renamed
  | movedIn
  | movedOut
  deriving DecidableEq

/-- Embeds the event filter of `Editor::s_on_file_monitor_changed`
(src/editor.cpp lines 1243-1247): only these event types are acted on. -/
def event_is_relevant (ev : FileMonitorEvent) : Bool :=
  ev = FileMonitorEvent.changed || ev = FileMonitorEvent.changesDoneHint ||
  ev = FileMonitorEvent.created || ev = FileMonitorEvent.movedIn

/-- The monitor-relevant slice of the editor's state: the watched path
(`current_file_`, empty means untitled/unwatched), the last known mtime in
microseconds (`file_mtime_utc_us_`, 0 means unknown), the one-shot
suppression flag (`suppress_monitor_once_`) and the dirty flag
(`modified_`). -/
structure EditorMonitorState where
  current_file : Text
  file_mtime_utc_us : Nat
  suppress_monitor_once : Bool
  modified : Bool
  deriving DecidableEq

/-- Outcome of one file-monitor notification: ignored; reloaded silently
(document not dirty); the user was prompted and accepted the reload; or the
user was prompted and declined, keeping the local edits. -/
inductive MonitorDecision where
  | ignore
  | silentReload
  | promptedReload
  | promptedKeep
  deriving DecidableEq

/-- Embeds `Editor::s_on_file_monitor_changed` (src/editor.cpp lines
1233-1263).  `now_mtime` is the oracle answer of `get_file_mtime_us` for the
watched path (0 when the file cannot be statted) and `confirm_accepted` the
oracle answer of `confirm_reload_external`.  The returned state reflects the
handler's own assignments; the reload itself (`open_file_from_path`) is
reported as the decision, to be carried out by the collaborators. -/
def s_on_file_monitor_changed (st : EditorMonitorState) (ev : FileMonitorEvent)
    (now_mtime : Nat) (confirm_accepted : Bool) : MonitorDecision × EditorMonitorState :=
  if st.current_file.isEmpty then (MonitorDecision.ignore, st)
  else if st.suppress_monitor_once then
    (MonitorDecision.ignore, { st with suppress_monitor_once := false })
  else if ¬ event_is_relevant ev then (MonitorDecision.ignore, st)
  else if now_mtime = 0 then (MonitorDecision.ignore, st)
  else if now_mtime = st.file_mtime_utc_us then (MonitorDecision.ignore, st)
  else
    let st1 := { st with file_mtime_utc_us := now_mtime }
    if st.modified then
      if confirm_accepted then (MonitorDecision.promptedReload, st1)
      else (MonitorDecision.promptedKeep, st1)
    else (MonitorDecision.silentReload, st1)

/-- Embeds the own-write bookkeeping of a successful `Editor::save_file`
(src/editor.cpp lines 561-565): arm the one-shot monitor suppression, record
the post-write mtime reported by `get_file_mtime_us` and clear the dirty
flag.  This is the code's realization of the spec's `markOwnWrite()`. -/
def save_file_update (st : EditorMonitorState) (write_mtime : Nat) : EditorMonitorState :=
  { st with
    suppress_monitor_once := true
    file_mtime_utc_us := write_mtime
    modified := false }

/-! ### Search characterization lemmas -/

/-- A successful front match needs at least the pattern's length of text. -/
theorem matches_here_length {pat : Text} {cs : Bool} {xs : Text}
    (h : matches_here pat cs xs = true) : pat.length ≤ xs.length := by
  have h' : (xs.take pat.length).map (fold_char cs) = pat.map (fold_char cs) := by
    simpa [matches_here] using h
  have hl := congrArg List.length h'
  simp [List.length_take] at hl
  omega

/-- Characterization of a successful leftmost-match scan: the reported offset
carries a match and lies within the text. -/
theorem firstMatchPos_some {pat : Text} {cs : Bool} :
    ∀ {u : Text} {j : Nat}, firstMatchPos pat cs u = some j →
      matches_here pat cs (u.drop j) = true ∧ j ≤ u.length := by
  intro u
  induction u with
  | nil =>
      intro j h
      by_cases hm : matches_here pat cs [] = true
      · simp [firstMatchPos, hm] at h
        subst h
        exact ⟨hm, Nat.le_refl _⟩
      · simp [firstMatchPos, hm] at h
  | cons c rest ih =>
      intro j h
      by_cases hm : matches_here pat cs (c :: rest) = true
      · simp [firstMatchPos, hm] at h
        subst h
        exact ⟨hm, Nat.zero_le _⟩
      · simp [firstMatchPos, hm] at h
        obtain ⟨j', hj', rfl⟩ := h
        obtain ⟨h1, h2⟩ := ih hj'
        refine ⟨by simpa using h1, by simpa using Nat.succ_le_succ h2⟩

/-- Characterization of a successful forward search: the pattern is nonempty,
the match starts at or after the requested start, matches there, and fits in
the text. -/
theorem findForwardFrom_some {t pat : Text} {cs : Bool} {start s : Nat}
    (h : findForwardFrom t pat cs start = some s) :
    pat ≠ [] ∧ start ≤ s ∧ matches_at t pat cs s = true ∧ s + pat.length ≤ t.length := by
  by_cases hp : pat.isEmpty
  · simp [findForwardFrom, hp] at h
  · simp [findForwardFrom, hp] at h
    obtain ⟨j, hj, rfl⟩ := h
    obtain ⟨h1, h2⟩ := firstMatchPos_some hj
    have hpne : pat ≠ [] := by simpa using hp
    have hp1 : 1 ≤ pat.length := List.length_pos.mpr hpne
    have hdd : (t.drop start).drop j = t.drop (start + j) := by
      rw [List.drop_drop]
    rw [hdd] at h1
    have hlen := matches_here_length h1
    rw [List.length_drop] at hlen
    refine ⟨hpne, Nat.le_add_left _ _, ?_, by omega⟩
    have hc : t.drop (j + start) = t.drop (start + j) := by rw [Nat.add_comm]
    simp [matches_at, hc, h1]

/-- The leftmost-match scan fails exactly when no offset matches. -/
theorem firstMatchPos_eq_none_iff {pat : Text} {cs : Bool} :
    ∀ {u : Text}, firstMatchPos pat cs u = none ↔
      ∀ j, matches_here pat cs (u.drop j) = false := by
  intro u
  induction u with
  | nil =>
      constructor
      · intro h j
        by_cases hm : matches_here pat cs [] = true
        · simp [firstMatchPos, hm] at h
        · simp [List.drop_nil]
          simpa using hm
      · intro h
        have h0 := h 0
        simp at h0
        simp [firstMatchPos, h0]
  | cons c rest ih =>
      by_cases hm : matches_here pat cs (c :: rest) = true
      · constructor
        · intro h
          simp [firstMatchPos, hm] at h
        · intro h
          have h0 := h 0
          simp [hm] at h0
      · constructor
        · intro h j
          simp [firstMatchPos, hm] at h
          cases j with
          | zero =>
              simpa using hm
          | succ j' =>
              have := ih.mp h j'
              simpa using this
        · intro h
          simp [firstMatchPos, hm]
          exact ih.mpr (fun j => by simpa using h (j + 1))

/-- An occurrence of a nonempty pattern starts strictly inside the text. -/
theorem matches_at_lt {t pat : Text} {cs : Bool} {j : Nat}
    (h : matches_at t pat cs j = true) (hp : pat ≠ []) : j < t.length := by
  have hl := matches_here_length (by simpa [matches_at] using h)
  rw [List.length_drop] at hl
  have hp1 : 1 ≤ pat.length := List.length_pos.mpr hp
  omega

/-- The forward primitive from offset 0 fails exactly when the pattern is
empty or occurs nowhere. -/
theorem findForwardFrom_zero_eq_none_iff {t pat : Text} {cs : Bool} :
    findForwardFrom t pat cs 0 = none ↔
      (pat = [] ∨ ∀ j, matches_at t pat cs j = false) := by
  by_cases hp : pat.isEmpty
  · simp [findForwardFrom, hp]
    exact Or.inl (by simpa using hp)
  · have hpne : pat ≠ [] := by simpa using hp
    simp [findForwardFrom, hp]
    rw [firstMatchPos_eq_none_iff]
    constructor
    · intro h
      exact Or.inr (fun j => by simpa [matches_at] using h j)
    · intro h j
      rcases h with h | h
      · exact absurd h hpne
      · simpa [matches_at] using h j

/-- The last offset below a bound satisfying a predicate exists exactly when
some offset below the bound satisfies it. -/
theorem filter_range_getLast?_eq_none_iff {p : Nat → Bool} {n : Nat} :
    ((List.range n).filter p).getLast? = none ↔ ∀ j, j < n → p j = false := by
  rw [List.getLast?_eq_none_iff, List.filter_eq_nil_iff]
  constructor
  · intro h j hj
    have := h j (List.mem_range.mpr hj)
    simpa using this
  · intro h j hjmem
    have := h j (List.mem_range.mp hjmem)
    simp [this]

/-- The last filtered offset below a bound satisfies the predicate and the
bound. -/
theorem filter_range_getLast?_eq_some {p : Nat → Bool} {n s : Nat}
    (h : ((List.range n).filter p).getLast? = some s) : s < n ∧ p s = true := by
  have hmem := List.mem_of_getLast?_eq_some h
  have hmf := List.mem_filter.mp hmem
  exact ⟨List.mem_range.mp hmf.1, by simpa using hmf.2⟩

/-- The backward primitive fails exactly when the pattern is empty or occurs
nowhere before the cursor. -/
theorem findBackwardFrom_eq_none_iff {t pat : Text} {cs : Bool} {cursor : Nat} :
    findBackwardFrom t pat cs cursor = none ↔
      (pat = [] ∨ ∀ j, j < cursor → matches_at t pat cs j = false) := by
  by_cases hp : pat.isEmpty
  · constructor
    · intro _
      exact Or.inl (by simpa using hp)
    · intro _
      simp [findBackwardFrom, hp]
  · have hpne : pat ≠ [] := by simpa using hp
    unfold findBackwardFrom
    rw [if_neg hp, filter_range_getLast?_eq_none_iff]
    constructor
    · intro h
      exact Or.inr h
    · intro h
      rcases h with h | h
      · exact absurd h hpne
      · exact h

/-- A successful backward search reports a genuine occurrence before the
cursor, for a nonempty pattern. -/
theorem findBackwardFrom_some {t pat : Text} {cs : Bool} {cursor s : Nat}
    (h : findBackwardFrom t pat cs cursor = some s) :
    pat ≠ [] ∧ s < cursor ∧ matches_at t pat cs s = true := by
  by_cases hp : pat.isEmpty
  · simp [findBackwardFrom, hp] at h
  · have hpne : pat ≠ [] := by simpa using hp
    unfold findBackwardFrom at h
    rw [if_neg hp] at h
    obtain ⟨h1, h2⟩ := filter_range_getLast?_eq_some h
    exact ⟨hpne, h1, h2⟩

/-! ### Replace loop lemmas -/

/-- Unfolding the replace loop when no further match exists. -/
theorem replace_all_loop_none {pat repl : Text} {cs : Bool} {fuel : Nat} {text : Text}
    {iter count : Nat} (h : findForwardFrom text pat cs iter = none) :
    replace_all_loop pat repl cs (fuel + 1) text iter count = (text, count) := by
  simp [replace_all_loop, h]

/-- Unfolding the replace loop on a match: substitute and continue with the
scan cursor one replacement-length past the end of the inserted text. -/
theorem replace_all_loop_some {pat repl : Text} {cs : Bool} {fuel : Nat} {text : Text}
    {iter count s : Nat} (h : findForwardFrom text pat cs iter = some s) :
    replace_all_loop pat repl cs (fuel + 1) text iter count =
      replace_all_loop pat repl cs fuel
        (text.take s ++ repl ++ text.drop (s + pat.length))
        (s + repl.length + repl.length) (count + 1) := by
  simp [replace_all_loop, h]

/-- A run out of matches stops the loop at any fuel. -/
theorem replace_all_loop_stop {pat repl : Text} {cs : Bool} {fuel : Nat} {text : Text}
    {iter count : Nat} (h : findForwardFrom text pat cs iter = none) :
    replace_all_loop pat repl cs fuel text iter count = (text, count) := by
  cases fuel with
  | zero => rfl
  | succ f => exact replace_all_loop_none h

/-- The fuel bound is never what stops the loop: any two fuels that dominate
the C++ termination measure `text.length + 1 - iter` give the same result, so
the fuelled embedding computes what the unbounded C++ loop computes. -/
theorem replace_all_loop_fuel_irrelevant (pat repl : Text) (cs : Bool) :
    ∀ (n fuel fuel' : Nat) (text : Text) (iter count : Nat),
      text.length + 1 - iter ≤ n →
      text.length + 1 - iter ≤ fuel → text.length + 1 - iter ≤ fuel' →
      replace_all_loop pat repl cs fuel text iter count =
        replace_all_loop pat repl cs fuel' text iter count := by
  intro n
  induction n using Nat.strong_induction_on with
  | _ n ih =>
    intro fuel fuel' text iter count hn hf hf'
    cases h : findForwardFrom text pat cs iter with
    | none => rw [replace_all_loop_stop h, replace_all_loop_stop h]
    | some s =>
        obtain ⟨hp, hs, _, hfit⟩ := findForwardFrom_some h
        have hp1 : 1 ≤ pat.length := List.length_pos.mpr hp
        obtain ⟨f, rfl⟩ : ∃ f, fuel = f + 1 := ⟨fuel - 1, by omega⟩
        obtain ⟨f', rfl⟩ : ∃ f', fuel' = f' + 1 := ⟨fuel' - 1, by omega⟩
        rw [replace_all_loop_some h, replace_all_loop_some h]
        have hlen : (text.take s ++ repl ++ text.drop (s + pat.length)).length =
            s + repl.length + (text.length - (s + pat.length)) := by
          simp [List.length_append, List.length_take, List.length_drop]
          omega
        exact ih (text.length - (s + pat.length) + 1) (by omega) f f' _ _ _
          (by rw [hlen]; omega) (by rw [hlen]; omega) (by rw [hlen]; omega)

/-- Forward search starting at or after the boundary of an appended prefix
sees only the suffix: a match of a nonempty pattern starting at or after the
boundary lies entirely in the suffix. -/
theorem findForwardFrom_append (a b pat : Text) (cs : Bool) (k : Nat) :
    findForwardFrom (a ++ b) pat cs (a.length + k) =
      (findForwardFrom b pat cs k).map (· + a.length) := by
  by_cases hp : pat.isEmpty
  · simp [findForwardFrom, hp]
  · have hdrop : (a ++ b).drop (a.length + k) = b.drop k := by
      rw [List.drop_append_eq_append_drop]
      rw [List.drop_eq_nil_of_le (by omega)]
      rw [List.nil_append]
      congr 1
      omega
    simp only [findForwardFrom, hp, Bool.false_eq_true, if_false, hdrop]
    cases firstMatchPos pat cs (b.drop k) with
    | none => simp
    | some j =>
        simp
        omega

/-- Text before the scan cursor is never rescanned by the replace loop: the
loop run on `pre ++ rest` with the cursor `k` characters past the boundary
leaves `pre` untouched and is the loop run on `rest` alone from cursor `k`,
with counts accumulating. -/
theorem replace_all_loop_append (pat repl : Text) (cs : Bool) :
    ∀ (n : Nat) (rest : Text), rest.length ≤ n →
    ∀ (fuel : Nat), rest.length < fuel → ∀ (pre : Text) (k count : Nat),
      replace_all_loop pat repl cs fuel (pre ++ rest) (pre.length + k) count =
        (pre ++ (replace_all_loop pat repl cs (rest.length + 1) rest k 0).1,
         count + (replace_all_loop pat repl cs (rest.length + 1) rest k 0).2) := by
  intro n
  induction n using Nat.strong_induction_on with
  | _ n ih =>
    intro rest hn fuel hfuel pre k count
    obtain ⟨f, rfl⟩ : ∃ f, fuel = f + 1 := ⟨fuel - 1, by omega⟩
    cases h : findForwardFrom rest pat cs k with
    | none =>
        have happ : findForwardFrom (pre ++ rest) pat cs (pre.length + k) = none := by
          rw [findForwardFrom_append, h]
          rfl
        rw [replace_all_loop_none happ, replace_all_loop_none h]
        simp
    | some s =>
        obtain ⟨hp, _, hm, hfit⟩ := findForwardFrom_some h
        have hp1 : 1 ≤ pat.length := List.length_pos.mpr hp
        have hsle : s ≤ rest.length := by omega
        have happ : findForwardFrom (pre ++ rest) pat cs (pre.length + k) =
            some (s + pre.length) := by
          rw [findForwardFrom_append, h]
          rfl
        rw [replace_all_loop_some happ, replace_all_loop_some h]
        have htake : (pre ++ rest).take (s + pre.length) = pre ++ rest.take s := by
          rw [List.take_append_eq_append_take]
          congr 1
          · exact List.take_of_length_le (by omega)
          · congr 1
            omega
        have hdrop : (pre ++ rest).drop (s + pre.length + pat.length) = rest.drop (s + pat.length) := by
          rw [List.drop_append_eq_append_drop]
          rw [List.drop_eq_nil_of_le (by omega)]
          rw [List.nil_append]
          congr 1
          omega
        rw [htake, hdrop]
        have hlen2 : (rest.drop (s + pat.length)).length < n := by
          rw [List.length_drop]
          omega
        have e1 : pre ++ rest.take s ++ repl ++ rest.drop (s + pat.length)
            = (pre ++ (rest.take s ++ repl)) ++ rest.drop (s + pat.length) := by
          simp [List.append_assoc]
        have IH1 := ih _ hlen2 (rest.drop (s + pat.length)) (Nat.le_refl _)
          f (by rw [List.length_drop]; omega) (pre ++ (rest.take s ++ repl)) repl.length (count + 1)
        have IH2 := ih _ hlen2 (rest.drop (s + pat.length)) (Nat.le_refl _)
          rest.length (by rw [List.length_drop]; omega) (rest.take s ++ repl) repl.length (0 + 1)
        have hl1 : (pre ++ (rest.take s ++ repl)).length = s + pre.length + repl.length := by
          simp [List.length_append, List.length_take]
          omega
        have hl2 : (rest.take s ++ repl).length = s + repl.length := by
          simp [List.length_append, List.length_take]
          omega
        rw [hl1] at IH1
        rw [hl2] at IH2
        rw [e1, IH1, IH2]
        simp [List.append_assoc]
        omega

/-! ### Save-fix lemmas -/

/-- The trim loop past the first line appends, for each remaining line, a
newline followed by the trimmed line. -/
theorem trim_join_false_eq (ls : List Text) :
    ∀ out : Text, trim_join ls out false =
      out ++ (ls.map (fun l => '\n' :: rtrim_copy l)).flatten := by
  induction ls with
  | nil =>
      intro out
      simp [trim_join]
  | cons l rest ih =>
      intro out
      simp [trim_join, ih, List.append_assoc]

/-- The trim pass is the getline lines, each right-trimmed, rejoined with a
newline before every line but the first. -/
theorem trimTrailingWhitespace_eq_join (t : Text) :
    trimTrailingWhitespace t = joinWithNewlines ((getlines t).map rtrim_copy) := by
  unfold trimTrailingWhitespace
  cases hgl : getlines t with
  | nil => simp [trim_join, joinWithNewlines]
  | cons l rest =>
      simp [trim_join, trim_join_false_eq, joinWithNewlines, List.map_map]
      rfl

/-- The ensure-newline pass always leaves a newline as the last character. -/
theorem ensureTrailingNewline_getLast? (t : Text) :
    (ensureTrailingNewline t).getLast? = some '\n' := by
  unfold ensureTrailingNewline
  by_cases h : t.isEmpty || t.getLast? ≠ some '\n'
  · rw [if_pos h]
    simp
  · rw [if_neg h]
    simp at h
    exact h.2

/-- The ensure-newline pass does nothing to a text already ending in a
newline. -/
theorem ensureTrailingNewline_of_newline {u : Text} (h : u.getLast? = some '\n') :
    ensureTrailingNewline u = u := by
  have hne : u ≠ [] := by
    intro he
    subst he
    simp at h
  simp [ensureTrailingNewline, h, hne]

/-! ### Claim theorems: save-time normalization -/

/-- C6 counterexample: `ensureTrailingNewline` does not leave the empty text
unchanged — the code's condition `text.empty() || text.back() != '\n'` is
true for the empty text, so a newline is appended. -/
theorem ensure_trailing_newline_empty_cex :
    ensureTrailingNewline [] = ['\n'] ∧ ensureTrailingNewline [] ≠ [] := by
  decide

/-- C6 (amended): `ensureTrailingNewline t` appends a single newline exactly
when `t` does not already end with one — including the empty text, which
becomes a single newline — and never duplicates an existing trailing
newline. -/
theorem ensure_trailing_newline_characterization (t : Text) :
    ensureTrailingNewline t = if t.getLast? = some '\n' then t else t ++ ['\n'] := by
  by_cases h : t.getLast? = some '\n'
  · have hne : t ≠ [] := by
      intro he
      subst he
      simp at h
    simp [ensureTrailingNewline, h, hne]
  · simp [ensureTrailingNewline, h]

/-- C7 counterexample: the trim pass is getline-based, so it merges trailing
newlines: on `"a\n\n\n"` it returns `"a\n\n"`, changing the number of
newline-separated parts from 4 to 3 — the claim's "never alters the line
count" fails, and so does its split-on-newline/rejoin description. -/
theorem trim_trailing_ws_line_count_cex :
    trimTrailingWhitespace ['a', '\n', '\n', '\n'] = ['a', '\n', '\n']
    ∧ (splitOnNewlines (trimTrailingWhitespace ['a', '\n', '\n', '\n'])).length ≠
        (splitOnNewlines ['a', '\n', '\n', '\n']).length := by
  decide

/-- C7 (amended): the trim pass equals: split into getline lines (a trailing
newline terminates the last line instead of opening an empty one), strip
trailing ASCII whitespace from each line, and rejoin with a newline before
every line but the first — lines are never reordered, though the count of
newline-separated parts can drop when trailing lines strip to empty; the
concrete scenario `"a \nb\t\nc"` gives `"a\nb\nc"`. -/
theorem trim_trailing_ws_getline_join :
    (∀ t : Text, trimTrailingWhitespace t = joinWithNewlines ((getlines t).map rtrim_copy))
    ∧ trimTrailingWhitespace ['a', ' ', '\n', 'b', '\t', '\n', 'c'] = ['a', '\n', 'b', '\n', 'c'] := by
  exact ⟨trimTrailingWhitespace_eq_join, by decide⟩

/-- C8 counterexample: the save-time composition (trim, then ensure-newline)
is not idempotent: on `"\n\n\n"` one application gives `"\n\n"`, a second
gives `"\n"`, because the getline loop drops one trailing newline per
application. -/
theorem save_fixes_not_idempotent_cex :
    apply_save_fixes true true (apply_save_fixes true true ['\n', '\n', '\n']) ≠
      apply_save_fixes true true ['\n', '\n', '\n'] := by
  decide

/-- C8 (amended): the save-time normalization is a pure function of the text
and `ensureTrailingNewline` alone is idempotent, but neither the trim pass
nor the trim-then-ensure composition is idempotent in general: each
application of the composition drops one trailing blank line
(`"\n\n\n" ↦ "\n\n" ↦ "\n"`, the last being a fixed point). -/
theorem save_fixes_idempotence_profile :
    (∀ t : Text, ensureTrailingNewline (ensureTrailingNewline t) = ensureTrailingNewline t)
    ∧ apply_save_fixes true true ['\n', '\n', '\n'] = ['\n', '\n']
    ∧ apply_save_fixes true true ['\n', '\n'] = ['\n']
    ∧ apply_save_fixes true true ['\n'] = ['\n'] := by
  refine ⟨fun t => ensureTrailingNewline_of_newline (ensureTrailingNewline_getLast? t),
    by decide, by decide, by decide⟩

/-! ### Claim theorems: external change reconciler -/

/-- C3 counterexample: after a save recording write mtime 2, a suppressed
notification whose stat oracle answers 3 is ignored and consumes the
suppression, but leaves `lastMtime` at 2, not at the notification's mtime 3 —
the handler's suppressed branch returns before ever querying the mtime. -/
theorem save_then_notification_mtime_cex :
    (s_on_file_monitor_changed (save_file_update ⟨['f'], 1, false, false⟩ 2)
        FileMonitorEvent.changed 3 false).1 = MonitorDecision.ignore
    ∧ (s_on_file_monitor_changed (save_file_update ⟨['f'], 1, false, false⟩ 2)
        FileMonitorEvent.changed 3 false).2.file_mtime_utc_us ≠ 3 := by
  decide

/-- C3 (amended): from `Watching(path, m0)`, a save that records the
post-write mtime `m_w` followed by any monitor notification yields `Ignore`,
consumes the suppression, and leaves the reconciler watching the same path
with `lastMtime = m_w` (and the dirty flag cleared by the save); the
notification's own mtime is never consulted, so the final state equals
`Watching(path, m1)` exactly when the notification echoes the write
(`m1 = m_w`). -/
theorem save_then_notification_ignore_keeps_write_mtime
    (st : EditorMonitorState) (write_mtime now_mtime : Nat) (ev : FileMonitorEvent)
    (confirm : Bool) (h : st.current_file ≠ []) :
    s_on_file_monitor_changed (save_file_update st write_mtime) ev now_mtime confirm =
      (MonitorDecision.ignore, ⟨st.current_file, write_mtime, false, false⟩) := by
  have hne : st.current_file.isEmpty = false := by
    simpa using h
  simp [s_on_file_monitor_changed, save_file_update, hne]

/-- C3 witness: a concrete save-then-notify run of the amended theorem. -/
theorem save_then_notification_ignore_keeps_write_mtime_witness :
    s_on_file_monitor_changed (save_file_update ⟨['f'], 1, false, true⟩ 2)
        FileMonitorEvent.deleted 9 true =
      (MonitorDecision.ignore, ⟨['f'], 2, false, false⟩) :=
  save_then_notification_ignore_keeps_write_mtime ⟨['f'], 1, false, true⟩ 2 9
    FileMonitorEvent.deleted true (by decide)

/-- C4: when an unsuppressed, relevant notification carries a statable mtime
that differs from the last known one, a dirty document is never reloaded
without the user accepting the prompt (declining keeps the local edits), and
a clean document is reloaded silently with no prompt. -/
theorem external_change_dirty_prompt_policy
    (st : EditorMonitorState) (ev : FileMonitorEvent) (m : Nat) (confirm : Bool)
    (hsup : st.suppress_monitor_once = false) (hpath : st.current_file ≠ [])
    (hev : event_is_relevant ev = true) (hm0 : m ≠ 0) (hm : m ≠ st.file_mtime_utc_us) :
    (st.modified = true →
      s_on_file_monitor_changed st ev m confirm =
        ((if confirm then MonitorDecision.promptedReload else MonitorDecision.promptedKeep),
         { st with file_mtime_utc_us := m }))
    ∧ (st.modified = false →
      s_on_file_monitor_changed st ev m confirm =
        (MonitorDecision.silentReload, { st with file_mtime_utc_us := m })) := by
  have hne : st.current_file.isEmpty = false := by
    simpa using hpath
  constructor
  · intro hd
    cases confirm <;> simp [s_on_file_monitor_changed, hne, hsup, hev, hm0, hm, hd]
  · intro hd
    simp [s_on_file_monitor_changed, hne, hsup, hev, hm0, hm, hd]

/-- C4 witness: a dirty document with a declined prompt keeps its edits. -/
theorem external_change_dirty_prompt_policy_witness :
    s_on_file_monitor_changed ⟨['f'], 5, false, true⟩ FileMonitorEvent.changed 7 false =
      (MonitorDecision.promptedKeep, ⟨['f'], 7, false, true⟩) :=
  (external_change_dirty_prompt_policy ⟨['f'], 5, false, true⟩ FileMonitorEvent.changed 7 false
    (by decide) (by decide) (by decide) (by decide) (by decide)).1 (by decide)

/-- C9: an unsuppressed notification whose stat oracle answers 0 (the file
cannot be statted) or the already-known mtime is ignored and leaves the
state exactly unchanged; moreover no notification ever changes the watched
path — only the explicit install/remove monitor calls do. -/
theorem monitor_noise_ignored_watch_kept :
    (∀ (st : EditorMonitorState) (ev : FileMonitorEvent) (m : Nat) (confirm : Bool),
      st.suppress_monitor_once = false →
      (m = 0 ∨ m = st.file_mtime_utc_us) →
      s_on_file_monitor_changed st ev m confirm = (MonitorDecision.ignore, st))
    ∧ (∀ (st : EditorMonitorState) (ev : FileMonitorEvent) (m : Nat) (confirm : Bool),
      (s_on_file_monitor_changed st ev m confirm).2.current_file = st.current_file) := by
  constructor
  · intro st ev m confirm hsup hm
    by_cases hpe : st.current_file.isEmpty
    · simp [s_on_file_monitor_changed, hpe]
    · by_cases hev : event_is_relevant ev
      · rcases hm with rfl | rfl
        · simp [s_on_file_monitor_changed, hpe, hsup, hev]
        · by_cases hm0 : st.file_mtime_utc_us = 0
          · simp [s_on_file_monitor_changed, hpe, hsup, hev, hm0]
          · simp [s_on_file_monitor_changed, hpe, hsup, hev, hm0]
      · simp [s_on_file_monitor_changed, hpe, hsup, hev]
  · intro st ev m confirm
    unfold s_on_file_monitor_changed
    split_ifs <;> rfl

/-- C9 witness: a notification repeating the known mtime is ignored. -/
theorem monitor_noise_ignored_watch_kept_witness :
    s_on_file_monitor_changed ⟨['f'], 5, false, false⟩ FileMonitorEvent.changed 5 false =
      (MonitorDecision.ignore, ⟨['f'], 5, false, false⟩) :=
  monitor_noise_ignored_watch_kept.1 ⟨['f'], 5, false, false⟩ FileMonitorEvent.changed 5 false
    (by decide) (Or.inr (by decide))

/-- C10: with the one-shot suppression armed, the very next notification of
any event type — including types the filter would otherwise discard, such as
delete or attribute-change — is ignored and clears the suppression, because
the suppression check precedes the event-type filter; the notification after
that is processed normally (a relevant event with a fresh statable mtime is
not ignored). -/
theorem suppression_consumed_before_event_filter
    (st : EditorMonitorState) (ev : FileMonitorEvent) (m : Nat) (confirm : Bool)
    (hsup : st.suppress_monitor_once = true) (hpath : st.current_file ≠ []) :
    s_on_file_monitor_changed st ev m confirm =
      (MonitorDecision.ignore, { st with suppress_monitor_once := false })
    ∧ (∀ (ev2 : FileMonitorEvent) (m2 : Nat) (confirm2 : Bool),
        event_is_relevant ev2 = true → m2 ≠ 0 → m2 ≠ st.file_mtime_utc_us →
        (s_on_file_monitor_changed { st with suppress_monitor_once := false }
            ev2 m2 confirm2).1 ≠ MonitorDecision.ignore) := by
  have hne : st.current_file.isEmpty = false := by
    simpa using hpath
  constructor
  · simp [s_on_file_monitor_changed, hne, hsup]
  · intro ev2 m2 confirm2 hev2 hm20 hm2
    by_cases hd : st.modified <;> by_cases hc : confirm2 <;>
      simp [s_on_file_monitor_changed, hne, hev2, hm20, hm2, hd, hc]

/-- C10 witness: a suppressed delete event (a type the filter would discard)
is ignored and consumes the suppression; the next relevant event with a
fresh mtime is then processed. -/
theorem suppression_consumed_before_event_filter_witness :
    (s_on_file_monitor_changed ⟨['f'], 5, true, false⟩ FileMonitorEvent.deleted 0 false =
      (MonitorDecision.ignore, ⟨['f'], 5, false, false⟩))
    ∧ (s_on_file_monitor_changed ⟨['f'], 5, false, false⟩ FileMonitorEvent.changed 7 false).1 ≠
        MonitorDecision.ignore := by
  have h := suppression_consumed_before_event_filter ⟨['f'], 5, true, false⟩
    FileMonitorEvent.deleted 0 false (by decide) (by decide)
  exact ⟨h.1, h.2 FileMonitorEvent.changed 7 false (by decide) (by decide) (by decide)⟩

/-! ### Claim theorems: search and replace -/

/-- C1 counterexample: on the claim's own scenario — text `"aaa"`, pattern
`"a"`, replacement `"aa"` — the program produces `"aaaa"` with exactly 1
replacement, not `"aaaaaa"` with 3: `gtk_text_buffer_insert` revalidates the
match-start iterator to the end of the inserted text, and the loop then
advances a further `repl.size()` characters, so the scan resumes two
replacement-lengths past the match start instead of immediately after the
inserted replacement. -/
theorem search_replace_all_single_pass_cex :
    search_replace_all ['a'] ['a', 'a'] false ['a', 'a', 'a'] = (['a', 'a', 'a', 'a'], 1)
    ∧ search_replace_all ['a'] ['a', 'a'] false ['a', 'a', 'a'] ≠
        (['a', 'a', 'a', 'a', 'a', 'a'], 3) := by
  decide

/-- C1 (amended): `replaceAll` is a single forward linear pass from offset 0
with no wrap, and the loop terminates for every text, pattern and
replacement; after each substitution at offset `s` the scan cursor resumes
at `s + 2·|replacement|` — the buffer insert leaves the iterator at the end
of the inserted text and the code then advances it by the replacement's
length again — so inserted replacement text is never rescanned, but
`|replacement|` characters of the original text after each substitution are
skipped unscanned; on text `"aaa"`, pattern `"a"`, replacement `"aa"` the
result is `"aaaa"` with exactly 1 replacement.  The recurrence below makes
the pass structure precise: the text up to and including the inserted
replacement is emitted verbatim, and the loop continues on the original
tail alone with its scan cursor `|replacement|` characters in (totality of
the embedding carries the loop's termination, justified by
`replace_all_loop_fuel_irrelevant`). -/
theorem search_replace_all_single_pass_no_rescan :
    search_replace_all ['a'] ['a', 'a'] false ['a', 'a', 'a'] = (['a', 'a', 'a', 'a'], 1)
    ∧ ∀ (pat repl text : Text) (cs : Bool) (s : Nat),
        findForwardFrom text pat cs 0 = some s →
        search_replace_all pat repl cs text =
          ((text.take s ++ repl) ++
            (replace_all_loop pat repl cs ((text.drop (s + pat.length)).length + 1)
              (text.drop (s + pat.length)) repl.length 0).1,
           1 + (replace_all_loop pat repl cs ((text.drop (s + pat.length)).length + 1)
              (text.drop (s + pat.length)) repl.length 0).2) := by
  constructor
  · decide
  · intro pat repl text cs s h
    obtain ⟨hp, _, hm, hfit⟩ := findForwardFrom_some h
    have hp1 : 1 ≤ pat.length := List.length_pos.mpr hp
    unfold search_replace_all
    rw [replace_all_loop_some h]
    have hl : (text.take s ++ repl).length = s + repl.length := by
      simp [List.length_take]
      omega
    have happ := replace_all_loop_append pat repl cs (text.drop (s + pat.length)).length
      (text.drop (s + pat.length)) (Nat.le_refl _) text.length
      (by rw [List.length_drop]; omega) (text.take s ++ repl) repl.length (0 + 1)
    rw [hl] at happ
    rw [happ]

/-- C1 witness: the recurrence at text `"abb"`, pattern `"b"`, replacement
`"c"`, whose first match is at offset 1; the extra cursor advance then
starts the continuation one character into the tail, skipping the second
`"b"`, which remains unreplaced. -/
theorem search_replace_all_single_pass_no_rescan_witness :
    search_replace_all ['b'] ['c'] false ['a', 'b', 'b'] =
      ((['a'] ++ ['c']) ++ (replace_all_loop ['b'] ['c'] false 2 ['b'] 1 0).1,
       1 + (replace_all_loop ['b'] ['c'] false 2 ['b'] 1 0).2) :=
  search_replace_all_single_pass_no_rescan.2 ['b'] ['c'] ['a', 'b', 'b'] false 1 (by decide)

/-- C2: `findNext` retries the directional search from the opposite end
exactly once and returns `none` exactly when the pattern is empty or occurs
nowhere in the text (so a match existing anywhere — in particular one lying
before a forward cursor or after a backward cursor — is found by the single
wrap retry); every returned range is a genuine occurrence of the pattern. -/
theorem search_find_next_wrap_once (t pat : Text) (cs : Bool) (cursor : Nat) (b : Bool) :
    (search_find_next t pat cs cursor b = none ↔
      (pat = [] ∨ ∀ j, matches_at t pat cs j = false))
    ∧ (∀ s e, search_find_next t pat cs cursor b = some (s, e) →
        matches_at t pat cs s = true ∧ e = s + pat.length) := by
  cases b with
  | false =>
      cases h1 : findForwardFrom t pat cs cursor with
      | some s =>
          have hres : search_find_next t pat cs cursor false = some (s, s + pat.length) := by
            simp [search_find_next, h1]
          obtain ⟨hp, _, hms, _⟩ := findForwardFrom_some h1
          constructor
          · rw [hres]
            exact iff_of_false (by simp)
              (fun hR => hR.elim (fun he => hp he) (fun hall => by simp [hall s] at hms))
          · intro s' e' hs'
            rw [hres] at hs'
            have hpair : s = s' ∧ s + pat.length = e' := by simpa using hs'
            obtain ⟨rfl, rfl⟩ := hpair
            exact ⟨hms, rfl⟩
      | none =>
          cases h2 : findForwardFrom t pat cs 0 with
          | some s =>
              have hres : search_find_next t pat cs cursor false = some (s, s + pat.length) := by
                simp [search_find_next, h1, h2]
              obtain ⟨hp, _, hms, _⟩ := findForwardFrom_some h2
              constructor
              · rw [hres]
                exact iff_of_false (by simp)
                  (fun hR => hR.elim (fun he => hp he) (fun hall => by simp [hall s] at hms))
              · intro s' e' hs'
                rw [hres] at hs'
                have hpair : s = s' ∧ s + pat.length = e' := by simpa using hs'
                obtain ⟨rfl, rfl⟩ := hpair
                exact ⟨hms, rfl⟩
          | none =>
              have hres : search_find_next t pat cs cursor false = none := by
                simp [search_find_next, h1, h2]
              constructor
              · rw [hres]
                exact iff_of_true rfl (findForwardFrom_zero_eq_none_iff.mp h2)
              · intro s' e' hs'
                rw [hres] at hs'
                cases hs'
  | true =>
      cases h1 : findBackwardFrom t pat cs cursor with
      | some s =>
          have hres : search_find_next t pat cs cursor true = some (s, s + pat.length) := by
            simp [search_find_next, h1]
          obtain ⟨hp, _, hms⟩ := findBackwardFrom_some h1
          constructor
          · rw [hres]
            exact iff_of_false (by simp)
              (fun hR => hR.elim (fun he => hp he) (fun hall => by simp [hall s] at hms))
          · intro s' e' hs'
            rw [hres] at hs'
            have hpair : s = s' ∧ s + pat.length = e' := by simpa using hs'
            obtain ⟨rfl, rfl⟩ := hpair
            exact ⟨hms, rfl⟩
      | none =>
          cases h2 : findBackwardFrom t pat cs t.length with
          | some s =>
              have hres : search_find_next t pat cs cursor true = some (s, s + pat.length) := by
                simp [search_find_next, h1, h2]
              obtain ⟨hp, _, hms⟩ := findBackwardFrom_some h2
              constructor
              · rw [hres]
                exact iff_of_false (by simp)
                  (fun hR => hR.elim (fun he => hp he) (fun hall => by simp [hall s] at hms))
              · intro s' e' hs'
                rw [hres] at hs'
                have hpair : s = s' ∧ s + pat.length = e' := by simpa using hs'
                obtain ⟨rfl, rfl⟩ := hpair
                exact ⟨hms, rfl⟩
          | none =>
              have hres : search_find_next t pat cs cursor true = none := by
                simp [search_find_next, h1, h2]
              constructor
              · rw [hres]
                refine iff_of_true rfl ?_
                rcases findBackwardFrom_eq_none_iff.mp h2 with hpe | hbnd
                · exact Or.inl hpe
                · by_cases hp : pat = []
                  · exact Or.inl hp
                  · refine Or.inr (fun j => ?_)
                    cases hv : matches_at t pat cs j with
                    | false => rfl
                    | true =>
                        have hcontra := hbnd j (matches_at_lt hv hp)
                        rw [hv] at hcontra
                        cases hcontra
              · intro s' e' hs'
                rw [hres] at hs'
                cases hs'

/-- C2 witness: the wrapped forward search on text `"aba"`, pattern `"b"`,
from cursor 2 (past the only match) finds the occurrence at offset 1. -/
theorem search_find_next_wrap_once_witness :
    matches_at ['a', 'b', 'a'] ['b'] false 1 = true ∧ 2 = 1 + (['b'] : Text).length :=
  (search_find_next_wrap_once ['a', 'b', 'a'] ['b'] false 2 false).2 1 2 (by decide)

/-- C5 counterexample: `Editor::search_replace_all` returns `void` and
discards its replacement counter (`(void)count;`, src/editor.cpp line 750),
so it does not return the number of replacements performed: two runs whose
internal counts differ (1 versus 0) leave the caller-observable result —
the final buffer text — identical. -/
theorem search_replace_all_returns_no_count_cex :
    search_replace_all_effect ['a'] ['a'] false ['a'] =
      search_replace_all_effect ['b'] ['c'] false ['a']
    ∧ (search_replace_all ['a'] ['a'] false ['a']).2 ≠
        (search_replace_all ['b'] ['c'] false ['a']).2 := by
  decide

/-- C5 (amended): the replace loop computes, alongside the final buffer
text, an internal count of the replacements performed, and that count is 0 —
with the text unchanged — whenever the pattern is empty or occurs nowhere in
the text; but the count is discarded rather than returned: the function's
return type is `void`, and only the final text reaches the caller. -/
theorem search_replace_all_count_zero (pat repl : Text) (cs : Bool) (text : Text)
    (h : pat = [] ∨ ∀ j, j < text.length → matches_at text pat cs j = false) :
    search_replace_all pat repl cs text = (text, 0)
    ∧ search_replace_all_effect pat repl cs text = text := by
  have hnone : findForwardFrom text pat cs 0 = none := by
    apply findForwardFrom_zero_eq_none_iff.mpr
    rcases h with h | h
    · exact Or.inl h
    · by_cases hp : pat = []
      · exact Or.inl hp
      · refine Or.inr (fun j => ?_)
        by_cases hj : j < text.length
        · exact h j hj
        · cases hv : matches_at text pat cs j with
          | false => rfl
          | true => exact absurd (matches_at_lt hv hp) hj
  constructor
  · unfold search_replace_all
    exact replace_all_loop_stop hnone
  · unfold search_replace_all_effect
    rw [replace_all_loop_stop hnone]

/-- C5 witness: an absent pattern leaves text `"ab"` unchanged with internal
count 0. -/
theorem search_replace_all_count_zero_witness :
    search_replace_all ['x'] ['y'] false ['a', 'b'] = (['a', 'b'], 0)
    ∧ search_replace_all_effect ['x'] ['y'] false ['a', 'b'] = ['a', 'b'] :=
  search_replace_all_count_zero ['x'] ['y'] false ['a', 'b'] (by decide)
